import Mathlib

/-!
Verification development for the `siren` WAV splitting tool.

The development shallowly embeds `src/waveform.py` (the WAV container codec)
together with the driver behaviour of `src/siren.py`.  A byte stream is a
`List Nat` (each entry a byte value `< 256` in well-formed inputs); Python's
sequential `file.read` calls are modelled by absolute-offset slices of the
stream, which is faithful because every `read` advances the cursor by exactly
the number of bytes it returns (clamped at end of stream, where slices are
empty as well).  Python exceptions are modelled by `Except PyError`.
-/

namespace Siren

/-- Errors raised by the reference code.  The first three correspond to the
`ValueError`s raised in `waveform.py` (the spec calls them
`UnexpectedEndOfStream`, `MalformedChunkSize` and `UnsupportedBitDepth`);
`structError` is Python's `struct.error`, raised by `struct.unpack` on a
buffer of the wrong size and by `struct.pack` on an out-of-range value;
`zeroDivisionError` is Python's `ZeroDivisionError`. -/
inductive PyError where
  | endOfFileDataNotFound
  | errorReadingFile
  | unsupportedBitDepth
  | structError
  | zeroDivisionError
deriving DecidableEq, Repr

/-- `slice s off n` is the list of bytes a Python `file.read(n)` returns when
the cursor sits at absolute offset `off` in the stream `s` (up to `n` bytes,
fewer at end of stream). -/
def slice (s : List Nat) (off n : Nat) : List Nat := (s.drop off).take n

/-- Value of a little-endian byte list (as `struct.unpack` computes it). -/
def leVal : List Nat → Nat
  | [] => 0
  | b :: bs => b + 256 * leVal bs

/-- The `k` little-endian bytes of `v` (as `struct.pack` emits them). -/
def leBytes : Nat → Nat → List Nat
  | 0, _ => []
  | k + 1, v => v % 256 :: leBytes k (v / 256)

/-- `struct.unpack('<I', bs)`: requires exactly 4 bytes. -/
def unpackU32 (bs : List Nat) : Except PyError Nat :=
  if bs.length = 4 then .ok (leVal bs) else .error .structError

/-- `struct.unpack('<H', bs)`: requires exactly 2 bytes. -/
def unpackU16 (bs : List Nat) : Except PyError Nat :=
  if bs.length = 2 then .ok (leVal bs) else .error .structError

/-- Two's-complement reading of a `w`-bit unsigned value. -/
def toSigned (w : Nat) (u : Nat) : Int :=
  if u < 2 ^ (w - 1) then (u : Int) else (u : Int) - 2 ^ w

/-- The sample format strings assigned in `Waveform.__init__`:
`'<B'` for 8-bit, `'<h'` for 16-bit, `'<i'` for 32-bit. -/
inductive SampleFormat where
  | uB
  | sh
  | si
deriving DecidableEq, Repr

/-- Byte width of one sample in the given format (`struct.calcsize`). -/
def SampleFormat.width : SampleFormat → Nat
  | .uB => 1
  | .sh => 2
  | .si => 4

/-- The `sample_format` selection of `waveform.py` lines 55-60 (the chain
`if bits == 8 / if bits == 16 elif bits == 32`), evaluated after the
bit-depth check has already restricted `bits` to 8, 16 or 32. -/
def sampleFormatOf (bits : Nat) : SampleFormat :=
  if bits = 16 then .sh else if bits = 32 then .si else .uB

/-- `struct.unpack(sample_format, bs)`: requires the exact byte width, then
decodes unsigned (8-bit) or two's-complement signed (16/32-bit). -/
def unpackSample (fmt : SampleFormat) (bs : List Nat) : Except PyError Int :=
  match fmt with
  | .uB => if bs.length = 1 then .ok (leVal bs : Int) else .error .structError
  | .sh => if bs.length = 2 then .ok (toSigned 16 (leVal bs)) else .error .structError
  | .si => if bs.length = 4 then .ok (toSigned 32 (leVal bs)) else .error .structError

/-- `struct.pack(sample_format, v)`: Python 3 raises `struct.error` when the
value is outside the representable range of the format; otherwise it emits
the little-endian bytes of the value's two's-complement representation. -/
def packSample (fmt : SampleFormat) (v : Int) : Except PyError (List Nat) :=
  match fmt with
  | .uB =>
    if 0 ≤ v ∧ v ≤ 255 then .ok (leBytes 1 v.toNat) else .error .structError
  | .sh =>
    if -32768 ≤ v ∧ v ≤ 32767 then .ok (leBytes 2 (v % 65536).toNat)
    else .error .structError
  | .si =>
    if -2147483648 ≤ v ∧ v ≤ 2147483647 then .ok (leBytes 4 (v % 4294967296).toNat)
    else .error .structError

/-- `struct.pack('<I', v)`: requires `0 ≤ v < 2^32`. -/
def packU32 (v : Nat) : Except PyError (List Nat) :=
  if v < 4294967296 then .ok (leBytes 4 v) else .error .structError

/-- `struct.pack('<H', v)`: requires `0 ≤ v < 2^16`. -/
def packU16 (v : Nat) : Except PyError (List Nat) :=
  if v < 65536 then .ok (leBytes 2 v) else .error .structError

/-- In-range test for a sample value at the given format (the exact
acceptance condition of `struct.pack` for `'<B'`, `'<h'`, `'<i'`). -/
def sampleInRange (fmt : SampleFormat) (v : Int) : Bool :=
  match fmt with
  | .uB => 0 ≤ v ∧ v ≤ 255
  | .sh => -32768 ≤ v ∧ v ≤ 32767
  | .si => -2147483648 ≤ v ∧ v ≤ 2147483647

/-- The byte tag `b'RIFF'`. -/
def riffTag : List Nat := [82, 73, 70, 70]

/-- The byte tag `b'WAVE'`. -/
def waveTag : List Nat := [87, 65, 86, 69]

/-- The byte tag `b'fmt '`. -/
def fmtTag : List Nat := [102, 109, 116, 32]

/-- The byte tag `b'data'`. -/
def dataTag : List Nat := [100, 97, 116, 97]

/-- `Waveform.find_data_block_size` (`waveform.py` lines 95-118): starting
with the cursor at `pos`, repeatedly read a 4-byte chunk id and a 4-byte
little-endian size.  An empty id read raises the "End of file" `ValueError`;
a short (1-3 byte) id read leaves a non-empty id, and the subsequent
`struct.unpack` on a short size read raises `struct.error`.  A chunk whose id
is `b'data'` returns its size (after rejecting the `0xFFFFFFFF` sentinel);
any other chunk is skipped with `file.seek(size, SEEK_CUR)`.  The returned
pair is `(block_size, cursor)` with the cursor at the data payload. -/
def find_data_block_size (s : List Nat) (pos : Nat) : Except PyError (Nat × Nat) :=
  if hid : slice s pos 4 = [] then
    .error .endOfFileDataNotFound
  else if hsz : (slice s (min (pos + 4) s.length) 4).length = 4 then
    if slice s pos 4 = dataTag then
      if leVal (slice s (min (pos + 4) s.length) 4) = 4294967295 then
        .error .errorReadingFile
      else
        .ok (leVal (slice s (min (pos + 4) s.length) 4), min (pos + 4) s.length + 4)
    else
      find_data_block_size s
        (min (pos + 4) s.length + 4 + leVal (slice s (min (pos + 4) s.length) 4))
  else .error .structError
termination_by s.length - pos
decreasing_by
  have hpos : pos < s.length := by
    by_contra hc
    exact hid (by simp [slice, List.drop_eq_nil_of_le (Nat.le_of_not_lt hc)])
  have h4 : min (pos + 4) s.length + 4 ≤ s.length := by
    have := hsz
    simp only [slice, List.length_take, List.length_drop] at this
    omega
  omega

/-- Per-sample nested read loop of `Waveform.__init__` lines 79-83:
`for sample_number in range(num): for channel_number in range(ch):` read the
sample at byte offset `(sample_number * ch + channel_number) * w` of the raw
data block. -/
def readAmplitudes (raw : List Nat) (fmt : SampleFormat) (w num ch : Nat) :
    Except PyError (List (List Int)) :=
  (List.range num).mapM (fun sample_number =>
    (List.range ch).mapM (fun channel_number =>
      unpackSample fmt (slice raw ((sample_number * ch + channel_number) * w) w)))

/-- The decoded `Waveform` object: the attributes `Waveform.__init__` stores. -/
structure Waveform where
  riff_id : List Nat
  file_size : Nat
  wave_id : List Nat
  fmt_id : List Nat
  fmt_size : Nat
  audio_format : Nat
  audio_channels : Nat
  sample_rate : Nat
  byte_rate : Nat
  block_align : Nat
  bits_per_sample : Nat
  bytes_per_sample : Nat
  sample_format : SampleFormat
  data_size : Nat
  bit_rate : Nat
  num_samples : Nat
  amplitudes : List (List Int)
deriving DecidableEq, Repr

/-- `Waveform.__init__` (`waveform.py` lines 29-93): eleven sequential reads
decode the RIFF header and the `fmt ` block at fixed offsets (the tag bytes at
offsets 0, 8 and 12 are stored but never validated), the bit depth is checked
against {8, 16, 32}, the chunk scanner locates the `data` block starting from
offset 36, `num_samples` is the floor of `data_size` over the frame byte
width, and the amplitude matrix is read from the raw data block. -/
def decodeWaveform (s : List Nat) : Except PyError Waveform := do
  let riff_id := slice s 0 4
  let file_size ← unpackU32 (slice s 4 4)
  let wave_id := slice s 8 4
  let fmt_id := slice s 12 4
  let fmt_size ← unpackU32 (slice s 16 4)
  let audio_format ← unpackU16 (slice s 20 2)
  let audio_channels ← unpackU16 (slice s 22 2)
  let sample_rate ← unpackU32 (slice s 24 4)
  let byte_rate ← unpackU32 (slice s 28 4)
  let block_align ← unpackU16 (slice s 32 2)
  let bits_per_sample ← unpackU16 (slice s 34 2)
  let bytes_per_sample := bits_per_sample / 8
  if bits_per_sample ∉ ([8, 16, 32] : List Nat) then
    .error .unsupportedBitDepth
  else do
    let sample_format := sampleFormatOf bits_per_sample
    let found ← find_data_block_size s 36
    let data_size := found.1
    let bit_rate := bits_per_sample * sample_rate
    if bytes_per_sample * audio_channels = 0 then .error .zeroDivisionError
    else do
      let num_samples := data_size / (bytes_per_sample * audio_channels)
      let raw_data := slice s found.2 data_size
      let amps ← readAmplitudes raw_data sample_format bytes_per_sample num_samples audio_channels
      .ok { riff_id := riff_id, file_size := file_size, wave_id := wave_id,
                fmt_id := fmt_id, fmt_size := fmt_size, audio_format := audio_format,
                audio_channels := audio_channels, sample_rate := sample_rate,
                byte_rate := byte_rate, block_align := block_align,
                bits_per_sample := bits_per_sample, bytes_per_sample := bytes_per_sample,
                sample_format := sample_format, data_size := data_size,
                bit_rate := bit_rate, num_samples := num_samples, amplitudes := amps }

/-- `Waveform.isolate` (`waveform.py` lines 159-166): the unimplemented
isolation stub returns the full amplitude matrix unchanged. -/
def isolate (wv : Waveform) (_source : String) : List (List Int) := wv.amplitudes

/-- The amplitude-writing loop of `Waveform.split` lines 151-153:
`for frame in isolated_amplitudes: for sample in frame:` pack each sample. -/
def packAmplitudes (fmt : SampleFormat) (amps : List (List Int)) : Except PyError (List Nat) :=
  (amps.mapM (fun (frame : List Int) =>
    (frame.mapM (fun sample => packSample fmt sample)).map List.flatten)).map List.flatten

/-- The byte sequence one iteration of `Waveform.split` writes
(`waveform.py` lines 130-153), in the order of the `file.write` calls. -/
def writeWavBytes (wv : Waveform) (amps : List (List Int)) : Except PyError (List Nat) := do
  let fileSizeBytes ← packU32 wv.file_size
  let fmtSizeBytes ← packU32 wv.fmt_size
  let audioFormatBytes ← packU16 wv.audio_format
  let channelsBytes ← packU16 wv.audio_channels
  let sampleRateBytes ← packU32 wv.sample_rate
  let byteRateBytes ← packU32 wv.byte_rate
  let blockAlignBytes ← packU16 wv.block_align
  let bitsBytes ← packU16 wv.bits_per_sample
  let dataSizeBytes ← packU32 wv.data_size
  let body ← packAmplitudes wv.sample_format amps
  .ok (riffTag ++ fileSizeBytes ++ waveTag ++
    fmtTag ++ fmtSizeBytes ++ audioFormatBytes ++ channelsBytes ++
    sampleRateBytes ++ byteRateBytes ++ blockAlignBytes ++ bitsBytes ++
    dataTag ++ dataSizeBytes ++ body)

/-- `Waveform.split` (`waveform.py` lines 120-157): for each source label in
order, isolate, then write `f'{output_directory}{source}.wav'`.  The result
pairs the files successfully written (path, bytes) with the first error, if
any; an error aborts the remaining labels but keeps the files already
written. -/
def split (wv : Waveform) (output_directory : String) :
    List String → List (String × List Nat) × Option PyError
  | [] => ([], none)
  | source :: rest =>
    let isolated_amplitudes := isolate wv source
    match writeWavBytes wv isolated_amplitudes with
    | .error e => ([], some e)
    | .ok bytes =>
      match split wv output_directory rest with
      | (others, err) => ((output_directory ++ source ++ ".wav", bytes) :: others, err)

/-- `siren.main` (`siren.py`): decode the input, then split.  A decode error
aborts the run before any output file is produced. -/
def runSiren (s : List Nat) (output_directory : String) (sources : List String) :
    List (String × List Nat) × Option PyError :=
  match decodeWaveform s with
  | .error e => ([], some e)
  | .ok wv => split wv output_directory sources

deriving instance DecidableEq for Except

/-- The 36 bytes the eleven header reads of `Waveform.__init__` consume, for
the canonical chunk layout of the spec's input table (§6). -/
def mkHeader (fs fmtsz af ch sr br ba bits : Nat) : List Nat :=
  riffTag ++ leBytes 4 fs ++ waveTag ++ fmtTag ++ leBytes 4 fmtsz ++ leBytes 2 af ++
  leBytes 2 ch ++ leBytes 4 sr ++ leBytes 4 br ++ leBytes 2 ba ++ leBytes 2 bits

/-- A canonical well-formed WAV stream per the spec's input table (§6): the
36-byte header, then the `data` chunk whose declared size is the payload
length, with nothing after the payload. -/
def canonicalWav (fs fmtsz af ch sr br ba bits : Nat) (payload : List Nat) : List Nat :=
  mkHeader fs fmtsz af ch sr br ba bits ++ dataTag ++ leBytes 4 payload.length ++ payload

/-- Structural row reader: the samples of one frame, taken from the front of
`raw` (used to restate `readAmplitudes` for induction). -/
def readRowRec (fmt : SampleFormat) (w : Nat) : Nat → List Nat → Except PyError (List Int)
  | 0, _ => .ok []
  | ch + 1, raw => do
    let v ← unpackSample fmt (raw.take w)
    let rest ← readRowRec fmt w ch (raw.drop w)
    .ok (v :: rest)

/-- Structural matrix reader: `num` frames of `ch` samples, consumed from the
front of `raw` (used to restate `readAmplitudes` for induction). -/
def readMatrixRec (fmt : SampleFormat) (w ch : Nat) :
    Nat → List Nat → Except PyError (List (List Int))
  | 0, _ => .ok []
  | num + 1, raw => do
    let row ← readRowRec fmt w ch raw
    let rest ← readMatrixRec fmt w ch num (raw.drop (ch * w))
    .ok (row :: rest)

/-- A `Waveform` with the three stored (but never validated) tag ids erased;
used to compare decodes of streams that differ only at the tag bytes. -/
def stripIds (wv : Waveform) : Waveform :=
  { wv with riff_id := [], wave_id := [], fmt_id := [] }

/-- The Encoder's output as §4.5 of the spec describes it: `RIFF` tag, the
container's `file_size` (4 bytes, carried, not recomputed), `WAVE` tag,
`fmt ` tag, `fmt_chunk_size`, the six format fields in the order and widths
of §4.2, `data` tag, the carried `data_size`, then the Sample Codec encoding
of the samples. -/
def encoderSpecOutput (wv : Waveform) (amps : List (List Int)) : Except PyError (List Nat) :=
  (packAmplitudes wv.sample_format amps).map (fun body =>
    riffTag ++ leBytes 4 wv.file_size ++ waveTag ++
    fmtTag ++ leBytes 4 wv.fmt_size ++ leBytes 2 wv.audio_format ++
    leBytes 2 wv.audio_channels ++ leBytes 4 wv.sample_rate ++
    leBytes 4 wv.byte_rate ++ leBytes 2 wv.block_align ++
    leBytes 2 wv.bits_per_sample ++ dataTag ++ leBytes 4 wv.data_size ++ body)

/-- A 16-bit mono stream whose `data` block declares 5 bytes: one byte more
than the two whole 2-byte frames it holds. -/
def c3stream : List Nat := canonicalWav 100 16 1 1 8000 16000 2 16 [1, 0, 2, 0, 99]

/-- The `Waveform` the reference code produces from `c3stream`: the trailing
partial frame is silently dropped. -/
def c3wave : Waveform :=
  { riff_id := [82, 73, 70, 70], file_size := 100, wave_id := [87, 65, 86, 69],
    fmt_id := [102, 109, 116, 32], fmt_size := 16, audio_format := 1,
    audio_channels := 1, sample_rate := 8000, byte_rate := 16000, block_align := 2,
    bits_per_sample := 16, bytes_per_sample := 2, sample_format := .sh,
    data_size := 5, bit_rate := 128000, num_samples := 2, amplitudes := [[1], [2]] }

/-- A canonical 16-bit mono WAV stream with a single frame `[5]`. -/
def c2plainStream : List Nat := canonicalWav 100 16 1 1 8000 16000 2 16 [5, 0]

/-- `c2plainStream` with an unknown chunk (`LIST`, declared size 4) inserted
between the `WAVE` tag and the `fmt ` chunk. -/
def c2paddedStream : List Nat :=
  riffTag ++ leBytes 4 100 ++ waveTag ++
  ([76, 73, 83, 84] ++ leBytes 4 4 ++ [1, 2, 3, 4]) ++
  fmtTag ++ leBytes 4 16 ++ leBytes 2 1 ++ leBytes 2 1 ++ leBytes 4 8000 ++
  leBytes 4 16000 ++ leBytes 2 2 ++ leBytes 2 16 ++ dataTag ++ leBytes 4 2 ++ [5, 0]

/-- The `Waveform` decoded from `c2plainStream`. -/
def c2wave : Waveform :=
  { riff_id := [82, 73, 70, 70], file_size := 100, wave_id := [87, 65, 86, 69],
    fmt_id := [102, 109, 116, 32], fmt_size := 16, audio_format := 1,
    audio_channels := 1, sample_rate := 8000, byte_rate := 16000, block_align := 2,
    bits_per_sample := 16, bytes_per_sample := 2, sample_format := .sh,
    data_size := 2, bit_rate := 128000, num_samples := 1, amplitudes := [[5]] }

/-- A stream with a valid 36-byte header that then ends with only 2 further
bytes: the chunk scan reads a non-empty chunk id but the 4-byte size read
cannot be satisfied. -/
def c4stream : List Nat := mkHeader 100 16 1 1 8000 16000 2 16 ++ [0, 0]

/-- A header declaring 24 bits per sample (and nothing after the header). -/
def c5stream : List Nat := mkHeader 100 16 1 1 8000 24000 3 24

/-- A stream whose first scanned chunk is an unknown (`LIST`) chunk declaring
the `0xFFFFFFFF` sentinel size. -/
def c6stream : List Nat :=
  mkHeader 100 16 1 1 8000 16000 2 16 ++ [76, 73, 83, 84] ++ leBytes 4 4294967295

/-- A small in-memory 8-bit mono `Waveform` with one frame `[7]`. -/
def c9wave : Waveform :=
  { riff_id := [82, 73, 70, 70], file_size := 29, wave_id := [87, 65, 86, 69],
    fmt_id := [102, 109, 116, 32], fmt_size := 16, audio_format := 1,
    audio_channels := 1, sample_rate := 8000, byte_rate := 8000, block_align := 1,
    bits_per_sample := 8, bytes_per_sample := 1, sample_format := .uB,
    data_size := 1, bit_rate := 64000, num_samples := 1, amplitudes := [[7]] }

/-- A small in-memory 8-bit stereo `Waveform` used to instantiate the encoder
layout theorem. -/
def c8wave : Waveform :=
  { riff_id := [82, 73, 70, 70], file_size := 40, wave_id := [87, 65, 86, 69],
    fmt_id := [102, 109, 116, 32], fmt_size := 16, audio_format := 1,
    audio_channels := 2, sample_rate := 8000, byte_rate := 16000, block_align := 2,
    bits_per_sample := 8, bytes_per_sample := 1, sample_format := .uB,
    data_size := 4, bit_rate := 64000, num_samples := 2,
    amplitudes := [[1, 2], [3, 4]] }

/-- The encoder output for `c9wave` (its 45 bytes, computed by hand from the
fixed layout). -/
def c9bytes : List Nat :=
  [82, 73, 70, 70, 29, 0, 0, 0, 87, 65, 86, 69, 102, 109, 116, 32, 16, 0, 0, 0,
   1, 0, 1, 0, 64, 31, 0, 0, 64, 31, 0, 0, 1, 0, 8, 0, 100, 97, 116, 97, 1, 0, 0, 0, 7]

/-- A canonical 16-bit mono WAV stream (tag bytes intact). -/
def c10sStream : List Nat := canonicalWav 100 16 1 1 8000 16000 2 16 [9, 0]

/-- `c10sStream` with the `RIFF`, `WAVE` and `fmt ` tag bytes replaced by
arbitrary other 4-byte values. -/
def c10tStream : List Nat :=
  [0, 0, 0, 0] ++ leBytes 4 100 ++ [1, 1, 1, 1] ++
  [2, 2, 2, 2] ++ leBytes 4 16 ++ leBytes 2 1 ++ leBytes 2 1 ++ leBytes 4 8000 ++
  leBytes 4 16000 ++ leBytes 2 2 ++ leBytes 2 16 ++ dataTag ++ leBytes 4 2 ++ [9, 0]

/-! ### Basic lemmas: `Except`, `slice`, little-endian bytes -/

@[simp]
theorem ok_bind {α β : Type} (a : α) (f : α → Except PyError β) :
    (Except.ok a >>= f) = f a := rfl

@[simp]
theorem error_bind {α β : Type} (e : PyError) (f : α → Except PyError β) :
    ((Except.error e : Except PyError α) >>= f) = Except.error e := rfl

@[simp]
theorem emap_ok {α β : Type} (f : α → β) (a : α) :
    (Except.ok a : Except PyError α).map f = .ok (f a) := rfl

@[simp]
theorem emap_error {α β : Type} (f : α → β) (e : PyError) :
    (Except.error e : Except PyError α).map f = .error e := rfl

theorem slice_length (s : List Nat) (off n : Nat) :
    (slice s off n).length = min n (s.length - off) := by
  simp [slice]

theorem length_slice_of_le {s : List Nat} {off n : Nat} (h : off + n ≤ s.length) :
    (slice s off n).length = n := by
  simp [slice]
  omega

theorem slice_drop (s : List Nat) (m k n : Nat) :
    slice (s.drop m) k n = slice s (m + k) n := by
  simp [slice, List.drop_drop]

theorem slice_nil_of_le {s : List Nat} {off : Nat} (h : s.length ≤ off) (n : Nat) :
    slice s off n = [] := by
  simp [slice, List.drop_eq_nil_of_le h]

theorem slice_ne_nil {s : List Nat} {off : Nat} (h : off < s.length) :
    slice s off 4 ≠ [] := by
  intro hc
  have hl := slice_length s off 4
  rw [hc] at hl
  simp at hl
  omega

theorem leBytes_length (k v : Nat) : (leBytes k v).length = k := by
  induction k generalizing v with
  | zero => rfl
  | succ k ih => simp [leBytes, ih]

theorem leVal_leBytes (k v : Nat) (h : v < 256 ^ k) : leVal (leBytes k v) = v := by
  induction k generalizing v with
  | zero =>
    simp [leBytes, leVal]
    simp at h
    omega
  | succ k ih =>
    have hdiv : v / 256 < 256 ^ k := by
      rw [pow_succ, mul_comm] at h
      exact Nat.div_lt_of_lt_mul h
    simp [leBytes, leVal, ih (v / 256) hdiv]
    omega

theorem leBytes_leVal (bs : List Nat) (h : ∀ b ∈ bs, b < 256) :
    leBytes bs.length (leVal bs) = bs := by
  induction bs with
  | nil => rfl
  | cons b t ih =>
    have hb : b < 256 := h b (by simp)
    have hmod : (b + 256 * leVal t) % 256 = b := by omega
    have hdiv : (b + 256 * leVal t) / 256 = leVal t := by omega
    simp only [List.length_cons, leBytes, leVal, hmod, hdiv]
    rw [ih (fun x hx => h x (by simp [hx]))]

theorem leBytes_lt (k v : Nat) : ∀ b ∈ leBytes k v, b < 256 := by
  induction k generalizing v with
  | zero => simp [leBytes]
  | succ k ih =>
    intro b hb
    simp only [leBytes, List.mem_cons] at hb
    rcases hb with hb | hb
    · omega
    · exact ih (v / 256) b hb

theorem unpackU32_ok {bs : List Nat} (h : bs.length = 4) :
    unpackU32 bs = .ok (leVal bs) := by
  simp [unpackU32, h]

theorem unpackU16_ok {bs : List Nat} (h : bs.length = 2) :
    unpackU16 bs = .ok (leVal bs) := by
  simp [unpackU16, h]

theorem packU32_ok {v : Nat} (h : v < 4294967296) :
    packU32 v = .ok (leBytes 4 v) := by
  simp [packU32, h]

theorem packU16_ok {v : Nat} (h : v < 65536) :
    packU16 v = .ok (leBytes 2 v) := by
  simp [packU16, h]

/-! ### One-step characterisation of the chunk scanner -/

theorem find_step_eof {s : List Nat} {pos : Nat} (h : s.length ≤ pos) :
    find_data_block_size s pos = .error .endOfFileDataNotFound := by
  rw [find_data_block_size]
  rw [dif_pos (slice_nil_of_le h 4)]

theorem find_step_structError {s : List Nat} {pos : Nat}
    (h1 : pos < s.length) (h2 : s.length < pos + 8) :
    find_data_block_size s pos = .error .structError := by
  have hnil : ¬ (slice s pos 4 = []) := slice_ne_nil h1
  have hlen : ¬ ((slice s (min (pos + 4) s.length) 4).length = 4) := by
    rw [slice_length]
    omega
  rw [find_data_block_size]
  rw [dif_neg hnil, dif_neg hlen]

theorem find_step_full {s : List Nat} {pos : Nat} (h : pos + 8 ≤ s.length) :
    find_data_block_size s pos =
      if slice s pos 4 = dataTag then
        if leVal (slice s (pos + 4) 4) = 4294967295 then .error .errorReadingFile
        else .ok (leVal (slice s (pos + 4) 4), pos + 8)
      else find_data_block_size s (pos + 8 + leVal (slice s (pos + 4) 4)) := by
  have hnil : ¬ (slice s pos 4 = []) := slice_ne_nil (by omega)
  have hmin : min (pos + 4) s.length = pos + 4 := by omega
  have hlen : (slice s (pos + 4) 4).length = 4 := length_slice_of_le (by omega)
  have h44 : pos + 4 + 4 = pos + 8 := by omega
  rw [find_data_block_size]
  simp only [hmin, h44]
  rw [dif_neg hnil, dif_pos hlen]

theorem find_step_match {s : List Nat} {pos : Nat} (h : pos + 8 ≤ s.length)
    (hid : slice s pos 4 = dataTag)
    (hval : leVal (slice s (pos + 4) 4) ≠ 4294967295) :
    find_data_block_size s pos = .ok (leVal (slice s (pos + 4) 4), pos + 8) := by
  rw [find_step_full h, if_pos hid, if_neg hval]

theorem find_step_match_bad {s : List Nat} {pos : Nat} (h : pos + 8 ≤ s.length)
    (hid : slice s pos 4 = dataTag)
    (hval : leVal (slice s (pos + 4) 4) = 4294967295) :
    find_data_block_size s pos = .error .errorReadingFile := by
  rw [find_step_full h, if_pos hid, if_pos hval]

theorem find_step_skip {s : List Nat} {pos : Nat} (h : pos + 8 ≤ s.length)
    (hid : slice s pos 4 ≠ dataTag) :
    find_data_block_size s pos =
      find_data_block_size s (pos + 8 + leVal (slice s (pos + 4) 4)) := by
  rw [find_step_full h, if_neg hid]

/-- Fuel-indexed form of `find_drop`: the chunk scan only depends on the part
of the stream from the cursor onwards, up to shifting the returned payload
position. -/
theorem find_drop_fuel :
    ∀ (k : Nat) (s : List Nat) (pos : Nat), s.length - pos ≤ k →
      find_data_block_size s pos =
        (find_data_block_size (s.drop pos) 0).map (fun r => (r.1, pos + r.2)) := by
  intro k
  induction k with
  | zero =>
    intro s pos h
    rw [find_step_eof (by omega), @find_step_eof (s.drop pos) 0 (by simp; omega)]
    rfl
  | succ k ih =>
    intro s pos h
    rcases le_or_lt s.length pos with hle | hlt
    · rw [find_step_eof hle, @find_step_eof (s.drop pos) 0 (by simp; omega)]
      rfl
    rcases Nat.lt_or_ge s.length (pos + 8) with h8 | h8
    · rw [find_step_structError hlt h8,
        @find_step_structError (s.drop pos) 0 (by simp; omega) (by simp; omega)]
      rfl
    · have e1 : slice (s.drop pos) 0 4 = slice s pos 4 := by
        rw [slice_drop]
        norm_num
      have e2 : slice (s.drop pos) (0 + 4) 4 = slice s (pos + 4) 4 := by
        rw [slice_drop]
      rw [find_step_full h8, @find_step_full (s.drop pos) 0 (by simp; omega)]
      rw [e1, e2]
      by_cases hid : slice s pos 4 = dataTag
      · rw [if_pos hid, if_pos hid]
        by_cases hval : leVal (slice s (pos + 4) 4) = 4294967295
        · rw [if_pos hval, if_pos hval]
          rfl
        · rw [if_neg hval, if_neg hval]
          simp
      · rw [if_neg hid, if_neg hid]
        rw [ih s (pos + 8 + leVal (slice s (pos + 4) 4)) (by omega)]
        rw [ih (s.drop pos) (0 + 8 + leVal (slice s (pos + 4) 4)) (by simp; omega)]
        rw [List.drop_drop]
        have harith : pos + (0 + 8 + leVal (slice s (pos + 4) 4)) =
            pos + 8 + leVal (slice s (pos + 4) 4) := by omega
        rw [harith]
        cases find_data_block_size (s.drop (pos + 8 + leVal (slice s (pos + 4) 4))) 0 with
        | error e => rfl
        | ok r => simp; omega

/-- The chunk scan depends only on the stream from the cursor onwards. -/
theorem find_drop (s : List Nat) (pos : Nat) :
    find_data_block_size s pos =
      (find_data_block_size (s.drop pos) 0).map (fun r => (r.1, pos + r.2)) :=
  find_drop_fuel s.length s pos (by omega)

/-- Fuel-indexed form of `find_ok_pos`. -/
theorem find_ok_pos_fuel :
    ∀ (k : Nat) (s : List Nat) (pos sz q : Nat), s.length - pos ≤ k →
      find_data_block_size s pos = .ok (sz, q) → pos + 8 ≤ q := by
  intro k
  induction k with
  | zero =>
    intro s pos sz q h hf
    rw [find_step_eof (by omega)] at hf
    simp at hf
  | succ k ih =>
    intro s pos sz q h hf
    rcases le_or_lt s.length pos with hle | hlt
    · rw [find_step_eof hle] at hf
      simp at hf
    rcases Nat.lt_or_ge s.length (pos + 8) with h8 | h8
    · rw [find_step_structError hlt h8] at hf
      simp at hf
    by_cases hid : slice s pos 4 = dataTag
    · by_cases hval : leVal (slice s (pos + 4) 4) = 4294967295
      · rw [find_step_match_bad h8 hid hval] at hf
        simp at hf
      · rw [find_step_match h8 hid hval] at hf
        simp at hf
        omega
    · rw [find_step_skip h8 hid] at hf
      have := ih s (pos + 8 + leVal (slice s (pos + 4) 4)) sz q (by omega) hf
      omega

/-- A successful chunk scan positions the payload cursor at least 8 bytes
past the scan start. -/
theorem find_ok_pos {s : List Nat} {pos sz q : Nat}
    (hf : find_data_block_size s pos = .ok (sz, q)) : pos + 8 ≤ q :=
  find_ok_pos_fuel s.length s pos sz q (by omega) hf

/-! ### `mapM` plumbing over `Except` -/

@[simp]
theorem pure_eq_ok {α : Type} (a : α) : (pure a : Except PyError α) = .ok a := rfl

theorem mapM_map_except {α β γ : Type} (g : α → β) (f : β → Except PyError γ)
    (l : List α) : (l.map g).mapM f = l.mapM (fun a => f (g a)) := by
  induction l with
  | nil => rfl
  | cons a t ih => rw [List.map_cons, List.mapM_cons, List.mapM_cons, ih]

theorem mapM_congr_except {α β : Type} {f g : α → Except PyError β} (l : List α)
    (h : ∀ a ∈ l, f a = g a) : l.mapM f = l.mapM g := by
  induction l with
  | nil => rfl
  | cons a t ih =>
    simp only [List.mapM_cons, h a (by simp), ih (fun x hx => h x (by simp [hx]))]

/-- The indexed inner loop of `readAmplitudes` is the structural row reader. -/
theorem readRow_eq (fmt : SampleFormat) (w : Nat) :
    ∀ (ch : Nat) (raw : List Nat),
      (List.range ch).mapM (fun cn => unpackSample fmt (slice raw (cn * w) w)) =
        readRowRec fmt w ch raw := by
  intro ch
  induction ch with
  | zero => intro raw; rfl
  | succ ch ih =>
    intro raw
    rw [List.range_succ_eq_map, List.mapM_cons, mapM_map_except]
    have hshift : ∀ cn ∈ List.range ch,
        unpackSample fmt (slice raw (Nat.succ cn * w) w) =
          unpackSample fmt (slice (raw.drop w) (cn * w) w) := by
      intro cn _
      rw [slice_drop]
      congr 1
      rw [Nat.succ_mul]
      ring_nf
    rw [mapM_congr_except _ hshift, ih]
    simp [readRowRec, slice]

/-- `readAmplitudes` coincides with the structural matrix reader. -/
theorem readAmplitudes_eq (fmt : SampleFormat) (w ch : Nat) :
    ∀ (num : Nat) (raw : List Nat),
      readAmplitudes raw fmt w num ch = readMatrixRec fmt w ch num raw := by
  intro num
  induction num with
  | zero => intro raw; rfl
  | succ num ih =>
    intro raw
    unfold readAmplitudes
    rw [List.range_succ_eq_map, List.mapM_cons, mapM_map_except]
    have hrow0 : (List.range ch).mapM
        (fun cn => unpackSample fmt (slice raw ((0 * ch + cn) * w) w)) =
          readRowRec fmt w ch raw := by
      rw [mapM_congr_except _ (fun cn _ => by rw [Nat.zero_mul, Nat.zero_add])]
      exact readRow_eq fmt w ch raw
    have hshift : ∀ sn ∈ List.range num,
        (List.range ch).mapM
            (fun cn => unpackSample fmt (slice raw ((Nat.succ sn * ch + cn) * w) w)) =
          (List.range ch).mapM
            (fun cn => unpackSample fmt (slice (raw.drop (ch * w)) ((sn * ch + cn) * w) w)) := by
      intro sn _
      refine mapM_congr_except _ (fun cn _ => ?_)
      rw [slice_drop]
      congr 1
      rw [Nat.succ_mul]
      ring_nf
    rw [hrow0, mapM_congr_except _ hshift]
    have ihr := ih (raw.drop (ch * w))
    unfold readAmplitudes at ihr
    rw [ihr]
    simp [readMatrixRec]

/-! ### Sample codec round trip -/

theorem leVal_lt (bs : List Nat) (h : ∀ b ∈ bs, b < 256) :
    leVal bs < 256 ^ bs.length := by
  induction bs with
  | nil => simp [leVal]
  | cons b t ih =>
    have hb : b < 256 := h b (by simp)
    have ht := ih (fun x hx => h x (by simp [hx]))
    simp only [leVal, List.length_cons, pow_succ]
    omega

/-- Decoding a full-width in-range byte group and re-encoding the resulting
sample value reproduces the bytes exactly. -/
theorem pack_unpack (fmt : SampleFormat) (bs : List Nat)
    (hlen : bs.length = fmt.width) (hb : ∀ b ∈ bs, b < 256) :
    ∃ v, unpackSample fmt bs = .ok v ∧ packSample fmt v = .ok bs := by
  have hval := leVal_lt bs hb
  have hlb := leBytes_leVal bs hb
  cases fmt with
  | uB =>
    simp only [SampleFormat.width] at hlen
    rw [hlen] at hval hlb
    norm_num at hval
    refine ⟨(leVal bs : Int), by simp [unpackSample, hlen], ?_⟩
    have hcond : (0 : Int) ≤ (leVal bs : Int) ∧ (leVal bs : Int) ≤ 255 := by
      constructor <;> omega
    simp only [packSample]
    rw [if_pos hcond]
    have htn : ((leVal bs : Int)).toNat = leVal bs := Int.toNat_natCast _
    rw [htn, hlb]
  | sh =>
    simp only [SampleFormat.width] at hlen
    rw [hlen] at hval hlb
    norm_num at hval
    refine ⟨toSigned 16 (leVal bs), by simp [unpackSample, hlen], ?_⟩
    have hcond : (-32768 : Int) ≤ toSigned 16 (leVal bs) ∧
        toSigned 16 (leVal bs) ≤ 32767 := by
      simp only [toSigned]
      norm_num
      split_ifs with hsplit <;> constructor <;> omega
    simp only [packSample]
    rw [if_pos hcond]
    have htn : ((toSigned 16 (leVal bs)) % 65536).toNat = leVal bs := by
      simp only [toSigned]
      norm_num
      split_ifs with hsplit <;> omega
    rw [htn, hlb]
  | si =>
    simp only [SampleFormat.width] at hlen
    rw [hlen] at hval hlb
    norm_num at hval
    refine ⟨toSigned 32 (leVal bs), by simp [unpackSample, hlen], ?_⟩
    have hcond : (-2147483648 : Int) ≤ toSigned 32 (leVal bs) ∧
        toSigned 32 (leVal bs) ≤ 2147483647 := by
      simp only [toSigned]
      norm_num
      split_ifs with hsplit <;> constructor <;> omega
    simp only [packSample]
    rw [if_pos hcond]
    have htn : ((toSigned 32 (leVal bs)) % 4294967296).toNat = leVal bs := by
      simp only [toSigned]
      norm_num
      split_ifs with hsplit <;> omega
    rw [htn, hlb]

/-- Reading one frame and re-packing it reproduces the consumed bytes. -/
theorem readRowRec_roundtrip (fmt : SampleFormat) :
    ∀ (ch : Nat) (raw : List Nat), ch * fmt.width ≤ raw.length →
      (∀ b ∈ raw, b < 256) →
      ∃ row, readRowRec fmt fmt.width ch raw = .ok row ∧
        (row.mapM (fun sample => packSample fmt sample)).map List.flatten =
          .ok (raw.take (ch * fmt.width)) := by
  intro ch
  induction ch with
  | zero =>
    intro raw _ _
    exact ⟨[], rfl, by simp only [Nat.zero_mul, List.take_zero]; rfl⟩
  | succ ch ih =>
    intro raw hlen hb
    rw [Nat.succ_mul] at hlen
    have hw : (raw.take fmt.width).length = fmt.width := by
      rw [List.length_take]
      omega
    obtain ⟨v, hun, hpk⟩ := pack_unpack fmt (raw.take fmt.width) hw
      (fun b hbm => hb b (List.take_subset _ _ hbm))
    obtain ⟨row, hrow, hpack⟩ := ih (raw.drop fmt.width)
      (by simp; omega) (fun b hbm => hb b (List.drop_subset _ _ hbm))
    refine ⟨v :: row, ?_, ?_⟩
    · simp [readRowRec, hun, hrow]
    · rw [List.mapM_cons, hpk]
      cases hmm : row.mapM (fun sample => packSample fmt sample) with
      | error e =>
        rw [hmm] at hpack
        simp at hpack
      | ok chunks =>
        rw [hmm] at hpack
        simp at hpack
        simp [hpack]
        have hsucc : Nat.succ ch * fmt.width = fmt.width + ch * fmt.width := by
          rw [Nat.succ_mul]
          omega
        rw [hsucc, List.take_add]

/-- Reading the whole matrix and re-packing it via the amplitude-writing loop
reproduces the raw data block. -/
theorem readMatrixRec_roundtrip (fmt : SampleFormat) (ch : Nat) :
    ∀ (num : Nat) (raw : List Nat), raw.length = num * (ch * fmt.width) →
      (∀ b ∈ raw, b < 256) →
      ∃ M, readMatrixRec fmt fmt.width ch num raw = .ok M ∧
        packAmplitudes fmt M = .ok raw := by
  intro num
  induction num with
  | zero =>
    intro raw hlen _
    have hnil : raw = [] := List.length_eq_zero.mp (by omega)
    subst hnil
    exact ⟨[], rfl, rfl⟩
  | succ num ih =>
    intro raw hlen hb
    rw [Nat.succ_mul] at hlen
    obtain ⟨row, hrow, hpackrow⟩ := readRowRec_roundtrip fmt ch raw (by omega) hb
    obtain ⟨M, hM, hpackM⟩ := ih (raw.drop (ch * fmt.width))
      (by simp; omega) (fun b hbm => hb b (List.drop_subset _ _ hbm))
    refine ⟨row :: M, ?_, ?_⟩
    · simp [readMatrixRec, hrow, hM]
    · unfold packAmplitudes
      unfold packAmplitudes at hpackM
      rw [List.mapM_cons, hpackrow]
      cases hmm : M.mapM (fun (frame : List Int) =>
          (frame.mapM (fun sample => packSample fmt sample)).map List.flatten) with
      | error e =>
        rw [hmm] at hpackM
        simp at hpackM
      | ok chunks =>
        rw [hmm] at hpackM
        simp at hpackM
        simp [hpackM]

/-! ### Slices of the canonical header -/

theorem mkHeader_length (fs fmtsz af ch sr br ba bits : Nat) :
    (mkHeader fs fmtsz af ch sr br ba bits).length = 36 := by
  simp [mkHeader, riffTag, waveTag, fmtTag, leBytes_length]

theorem mkHeader_drop36 (fs fmtsz af ch sr br ba bits : Nat) (rest : List Nat) :
    (mkHeader fs fmtsz af ch sr br ba bits ++ rest).drop 36 = rest := by
  simp [mkHeader, riffTag, waveTag, fmtTag, List.drop_append_eq_append_drop,
    List.drop_eq_nil_of_le, leBytes_length]

theorem mkHeader_slice0 (fs fmtsz af ch sr br ba bits : Nat) (rest : List Nat) :
    slice (mkHeader fs fmtsz af ch sr br ba bits ++ rest) 0 4 = riffTag := by
  simp [slice, mkHeader, riffTag, waveTag, fmtTag, List.drop_append_eq_append_drop,
    List.drop_eq_nil_of_le, leBytes_length, List.take_append_eq_append_take,
    List.take_of_length_le]

theorem mkHeader_slice4 (fs fmtsz af ch sr br ba bits : Nat) (rest : List Nat) :
    slice (mkHeader fs fmtsz af ch sr br ba bits ++ rest) 4 4 = leBytes 4 fs := by
  simp [slice, mkHeader, riffTag, waveTag, fmtTag, List.drop_append_eq_append_drop,
    List.drop_eq_nil_of_le, leBytes_length, List.take_append_eq_append_take,
    List.take_of_length_le]

theorem mkHeader_slice8 (fs fmtsz af ch sr br ba bits : Nat) (rest : List Nat) :
    slice (mkHeader fs fmtsz af ch sr br ba bits ++ rest) 8 4 = waveTag := by
  simp [slice, mkHeader, riffTag, waveTag, fmtTag, List.drop_append_eq_append_drop,
    List.drop_eq_nil_of_le, leBytes_length, List.take_append_eq_append_take,
    List.take_of_length_le]

theorem mkHeader_slice12 (fs fmtsz af ch sr br ba bits : Nat) (rest : List Nat) :
    slice (mkHeader fs fmtsz af ch sr br ba bits ++ rest) 12 4 = fmtTag := by
  simp [slice, mkHeader, riffTag, waveTag, fmtTag, List.drop_append_eq_append_drop,
    List.drop_eq_nil_of_le, leBytes_length, List.take_append_eq_append_take,
    List.take_of_length_le]

theorem mkHeader_slice16 (fs fmtsz af ch sr br ba bits : Nat) (rest : List Nat) :
    slice (mkHeader fs fmtsz af ch sr br ba bits ++ rest) 16 4 = leBytes 4 fmtsz := by
  simp [slice, mkHeader, riffTag, waveTag, fmtTag, List.drop_append_eq_append_drop,
    List.drop_eq_nil_of_le, leBytes_length, List.take_append_eq_append_take,
    List.take_of_length_le]

theorem mkHeader_slice20 (fs fmtsz af ch sr br ba bits : Nat) (rest : List Nat) :
    slice (mkHeader fs fmtsz af ch sr br ba bits ++ rest) 20 2 = leBytes 2 af := by
  simp [slice, mkHeader, riffTag, waveTag, fmtTag, List.drop_append_eq_append_drop,
    List.drop_eq_nil_of_le, leBytes_length, List.take_append_eq_append_take,
    List.take_of_length_le]

theorem mkHeader_slice22 (fs fmtsz af ch sr br ba bits : Nat) (rest : List Nat) :
    slice (mkHeader fs fmtsz af ch sr br ba bits ++ rest) 22 2 = leBytes 2 ch := by
  simp [slice, mkHeader, riffTag, waveTag, fmtTag, List.drop_append_eq_append_drop,
    List.drop_eq_nil_of_le, leBytes_length, List.take_append_eq_append_take,
    List.take_of_length_le]

theorem mkHeader_slice24 (fs fmtsz af ch sr br ba bits : Nat) (rest : List Nat) :
    slice (mkHeader fs fmtsz af ch sr br ba bits ++ rest) 24 4 = leBytes 4 sr := by
  simp [slice, mkHeader, riffTag, waveTag, fmtTag, List.drop_append_eq_append_drop,
    List.drop_eq_nil_of_le, leBytes_length, List.take_append_eq_append_take,
    List.take_of_length_le]

theorem mkHeader_slice28 (fs fmtsz af ch sr br ba bits : Nat) (rest : List Nat) :
    slice (mkHeader fs fmtsz af ch sr br ba bits ++ rest) 28 4 = leBytes 4 br := by
  simp [slice, mkHeader, riffTag, waveTag, fmtTag, List.drop_append_eq_append_drop,
    List.drop_eq_nil_of_le, leBytes_length, List.take_append_eq_append_take,
    List.take_of_length_le]

theorem mkHeader_slice32 (fs fmtsz af ch sr br ba bits : Nat) (rest : List Nat) :
    slice (mkHeader fs fmtsz af ch sr br ba bits ++ rest) 32 2 = leBytes 2 ba := by
  simp [slice, mkHeader, riffTag, waveTag, fmtTag, List.drop_append_eq_append_drop,
    List.drop_eq_nil_of_le, leBytes_length, List.take_append_eq_append_take,
    List.take_of_length_le]

theorem mkHeader_slice34 (fs fmtsz af ch sr br ba bits : Nat) (rest : List Nat) :
    slice (mkHeader fs fmtsz af ch sr br ba bits ++ rest) 34 2 = leBytes 2 bits := by
  simp [slice, mkHeader, riffTag, waveTag, fmtTag, List.drop_append_eq_append_drop,
    List.drop_eq_nil_of_le, leBytes_length, List.take_append_eq_append_take,
    List.take_of_length_le]

/-- Under the bit-depth guard, the selected sample format's byte width is
`bits // 8`, i.e. the source's `bytes_per_sample`. -/
theorem sampleFormatOf_width {bits : Nat} (h : bits = 8 ∨ bits = 16 ∨ bits = 32) :
    (sampleFormatOf bits).width = bits / 8 := by
  rcases h with h | h | h <;> subst h <;> rfl

/-- Decoding a canonical well-formed WAV stream succeeds and yields exactly
the header fields and the sample matrix of the payload; the matrix re-packs
to the payload bytes. -/
theorem decodeWaveform_canonical (fs fmtsz af ch sr br ba bits : Nat) (payload : List Nat)
    (hbits : bits = 8 ∨ bits = 16 ∨ bits = 32)
    (hch : 0 < ch)
    (hdvd : (bits / 8 * ch) ∣ payload.length)
    (hplen : payload.length < 4294967295)
    (hpb : ∀ b ∈ payload, b < 256)
    (hfs : fs < 4294967296) (hfmtsz : fmtsz < 4294967296) (haf : af < 65536)
    (hch2 : ch < 65536) (hsr : sr < 4294967296) (hbr : br < 4294967296)
    (hba : ba < 65536) :
    ∃ M, readMatrixRec (sampleFormatOf bits) (bits / 8) ch
          (payload.length / (bits / 8 * ch)) payload = .ok M ∧
      packAmplitudes (sampleFormatOf bits) M = .ok payload ∧
      decodeWaveform (canonicalWav fs fmtsz af ch sr br ba bits payload) =
        .ok { riff_id := riffTag, file_size := fs, wave_id := waveTag,
              fmt_id := fmtTag, fmt_size := fmtsz, audio_format := af,
              audio_channels := ch, sample_rate := sr, byte_rate := br,
              block_align := ba, bits_per_sample := bits,
              bytes_per_sample := bits / 8, sample_format := sampleFormatOf bits,
              data_size := payload.length, bit_rate := bits * sr,
              num_samples := payload.length / (bits / 8 * ch), amplitudes := M } := by
  have hbitslt : bits < 65536 := by rcases hbits with h | h | h <;> omega
  have hw : (sampleFormatOf bits).width = bits / 8 := sampleFormatOf_width hbits
  have hwpos : 0 < bits / 8 := by rcases hbits with h | h | h <;> subst h <;> norm_num
  have hS : canonicalWav fs fmtsz af ch sr br ba bits payload =
      mkHeader fs fmtsz af ch sr br ba bits ++
        (dataTag ++ (leBytes 4 payload.length ++ payload)) := by
    simp [canonicalWav, List.append_assoc]
  have hSlen : (mkHeader fs fmtsz af ch sr br ba bits ++
      (dataTag ++ (leBytes 4 payload.length ++ payload))).length = 44 + payload.length := by
    simp [List.length_append, mkHeader_length, dataTag, leBytes_length]
    omega
  have hdrop36 : (mkHeader fs fmtsz af ch sr br ba bits ++
      (dataTag ++ (leBytes 4 payload.length ++ payload))).drop 36 =
      dataTag ++ (leBytes 4 payload.length ++ payload) := mkHeader_drop36 _ _ _ _ _ _ _ _ _
  have hslice36 : slice (mkHeader fs fmtsz af ch sr br ba bits ++
      (dataTag ++ (leBytes 4 payload.length ++ payload))) 36 4 = dataTag := by
    simp only [slice, hdrop36]
    simp [dataTag, List.take_append_eq_append_take]
  have hslice40 : slice (mkHeader fs fmtsz af ch sr br ba bits ++
      (dataTag ++ (leBytes 4 payload.length ++ payload))) 40 4 = leBytes 4 payload.length := by
    rw [show (40 : Nat) = 36 + 4 from rfl, ← slice_drop, hdrop36]
    simp [slice, dataTag, List.drop_append_eq_append_drop, leBytes_length,
      List.take_append_eq_append_take, List.take_of_length_le]
  have hval40 : leVal (slice (mkHeader fs fmtsz af ch sr br ba bits ++
      (dataTag ++ (leBytes 4 payload.length ++ payload))) 40 4) = payload.length := by
    rw [hslice40]
    exact leVal_leBytes 4 payload.length (by omega)
  have hfind : find_data_block_size (mkHeader fs fmtsz af ch sr br ba bits ++
      (dataTag ++ (leBytes 4 payload.length ++ payload))) 36 = .ok (payload.length, 44) := by
    rw [find_step_match (by omega) hslice36 (by rw [hval40]; omega), hval40]
  have hdrop44 : (mkHeader fs fmtsz af ch sr br ba bits ++
      (dataTag ++ (leBytes 4 payload.length ++ payload))).drop 44 = payload := by
    rw [show (44 : Nat) = 36 + 8 from rfl, ← List.drop_drop, hdrop36]
    simp [dataTag, List.drop_append_eq_append_drop, leBytes_length]
  have hraw : slice (mkHeader fs fmtsz af ch sr br ba bits ++
      (dataTag ++ (leBytes 4 payload.length ++ payload))) 44 payload.length = payload := by
    simp only [slice, hdrop44, List.take_length]
  have hplen_num : payload.length =
      (payload.length / (bits / 8 * ch)) * (ch * (sampleFormatOf bits).width) := by
    obtain ⟨num, hnum⟩ := hdvd
    rw [hw]
    rw [hnum, Nat.mul_div_cancel_left num (by positivity)]
    ring
  obtain ⟨M, hM, hpackM⟩ := readMatrixRec_roundtrip (sampleFormatOf bits) ch
    (payload.length / (bits / 8 * ch)) payload hplen_num hpb
  rw [hw] at hM
  refine ⟨M, hM, hpackM, ?_⟩
  rw [hS]
  unfold decodeWaveform
  rw [mkHeader_slice0, mkHeader_slice4, mkHeader_slice8, mkHeader_slice12,
      mkHeader_slice16, mkHeader_slice20, mkHeader_slice22, mkHeader_slice24,
      mkHeader_slice28, mkHeader_slice32, mkHeader_slice34]
  rw [unpackU32_ok (leBytes_length 4 fs), unpackU32_ok (leBytes_length 4 fmtsz),
      unpackU16_ok (leBytes_length 2 af), unpackU16_ok (leBytes_length 2 ch),
      unpackU32_ok (leBytes_length 4 sr), unpackU32_ok (leBytes_length 4 br),
      unpackU16_ok (leBytes_length 2 ba), unpackU16_ok (leBytes_length 2 bits)]
  rw [leVal_leBytes 4 fs hfs, leVal_leBytes 4 fmtsz hfmtsz, leVal_leBytes 2 af haf,
      leVal_leBytes 2 ch hch2, leVal_leBytes 4 sr hsr, leVal_leBytes 4 br hbr,
      leVal_leBytes 2 ba hba, leVal_leBytes 2 bits hbitslt]
  simp only [ok_bind]
  have hmem : bits ∈ ([8, 16, 32] : List Nat) := by
    rcases hbits with h | h | h <;> subst h <;> simp
  simp only [hmem, not_true_eq_false, if_false]
  rw [hfind]
  simp only [ok_bind]
  rw [if_neg (show ¬ (bits / 8 * ch = 0) by positivity)]
  rw [hraw]
  rw [readAmplitudes_eq]
  rw [hM]
  rfl

/-! ### Congruence of decoding over streams that agree on the consumed bytes -/

theorem slice_append_left (u v : List Nat) (k n : Nat) (h : k + n ≤ u.length) :
    slice (u ++ v) k n = slice u k n := by
  unfold slice
  rw [List.drop_append_eq_append_drop, List.take_append_eq_append_take]
  have h1 : k - u.length = 0 := by omega
  have h2 : n - (u.drop k).length = 0 := by
    simp
    omega
  rw [h1, h2]
  simp

theorem drop_append_len {u : List Nat} (v : List Nat) {k : Nat} (h : u.length = k) :
    (u ++ v).drop k = v := by
  rw [← h]
  exact List.drop_left u v

theorem ebind_map_congr {α β γ : Type} (q : β → γ) (x : Except PyError α)
    (f g : α → Except PyError β) (h : ∀ a, (f a).map q = (g a).map q) :
    (x >>= f).map q = (x >>= g).map q := by
  cases x with
  | error e => rfl
  | ok a => exact h a

set_option maxHeartbeats 1000000 in
theorem decode_strip_congr (s t : List Nat)
    (hfs : slice t 4 4 = slice s 4 4)
    (hfmtsz : slice t 16 4 = slice s 16 4)
    (haf : slice t 20 2 = slice s 20 2)
    (hch : slice t 22 2 = slice s 22 2)
    (hsr : slice t 24 4 = slice s 24 4)
    (hbr : slice t 28 4 = slice s 28 4)
    (hba : slice t 32 2 = slice s 32 2)
    (hbits : slice t 34 2 = slice s 34 2)
    (hfind : (∃ e, find_data_block_size t 36 = .error e ∧
                find_data_block_size s 36 = .error e) ∨
             (∃ n pt ps, find_data_block_size t 36 = .ok (n, pt) ∧
                find_data_block_size s 36 = .ok (n, ps) ∧
                slice t pt n = slice s ps n)) :
    (decodeWaveform t).map stripIds = (decodeWaveform s).map stripIds := by
  unfold decodeWaveform
  rw [hfs, hfmtsz, haf, hch, hsr, hbr, hba, hbits]
  refine ebind_map_congr _ _ _ _ (fun v1 => ?_)
  refine ebind_map_congr _ _ _ _ (fun v2 => ?_)
  refine ebind_map_congr _ _ _ _ (fun v3 => ?_)
  refine ebind_map_congr _ _ _ _ (fun v4 => ?_)
  refine ebind_map_congr _ _ _ _ (fun v5 => ?_)
  refine ebind_map_congr _ _ _ _ (fun v6 => ?_)
  refine ebind_map_congr _ _ _ _ (fun v7 => ?_)
  refine ebind_map_congr _ _ _ _ (fun v8 => ?_)
  by_cases hmem : v8 ∉ ([8, 16, 32] : List Nat)
  · simp only [if_pos hmem]
  · simp only [if_neg hmem]
    rcases hfind with ⟨e, hte, hse⟩ | ⟨n, pt, ps, hto, hso, hraw⟩
    · rw [hte, hse]
      rfl
    · rw [hto, hso]
      simp only [ok_bind]
      by_cases hzero : v8 / 8 * v4 = 0
      · simp only [if_pos hzero]
      · simp only [if_neg hzero]
        rw [hraw]
        refine ebind_map_congr _ _ _ _ (fun amps => ?_)
        simp [stripIds]

/-! ### Claim theorems -/

/-- Claim C1: for every well-formed PCM WAV byte stream (canonical layout of
the spec's input table, bit depth in {8, 16, 32}, at least one channel, no
trailing partial frame), decoding the stream into a `Waveform` container and
then encoding that container through the identity isolation stage
(`isolate` returns the samples unchanged) produces a byte sequence identical
to the input stream. -/
theorem c1_roundtrip (fs fmtsz af ch sr br ba bits : Nat) (payload : List Nat)
    (label : String)
    (hbits : bits = 8 ∨ bits = 16 ∨ bits = 32)
    (hch : 0 < ch)
    (hdvd : (bits / 8 * ch) ∣ payload.length)
    (hplen : payload.length < 4294967295)
    (hpb : ∀ b ∈ payload, b < 256)
    (hfs : fs < 4294967296) (hfmtsz : fmtsz < 4294967296) (haf : af < 65536)
    (hch2 : ch < 65536) (hsr : sr < 4294967296) (hbr : br < 4294967296)
    (hba : ba < 65536) :
    (decodeWaveform (canonicalWav fs fmtsz af ch sr br ba bits payload) >>= fun wv =>
        writeWavBytes wv (isolate wv label)) =
      .ok (canonicalWav fs fmtsz af ch sr br ba bits payload) := by
  obtain ⟨M, hM, hpackM, hdec⟩ := decodeWaveform_canonical fs fmtsz af ch sr br ba bits
    payload hbits hch hdvd hplen hpb hfs hfmtsz haf hch2 hsr hbr hba
  have hbitslt : bits < 65536 := by rcases hbits with h | h | h <;> omega
  rw [hdec, ok_bind]
  unfold isolate writeWavBytes
  rw [packU32_ok hfs, packU32_ok hfmtsz, packU16_ok haf, packU16_ok hch2,
      packU32_ok hsr, packU32_ok hbr, packU16_ok hba, packU16_ok hbitslt,
      packU32_ok (show payload.length < 4294967296 by omega)]
  simp only [ok_bind]
  rw [hpackM]
  simp only [ok_bind]
  simp [canonicalWav, mkHeader, List.append_assoc]

/-- Witness for C1 at a concrete 16-bit mono two-frame stream. -/
theorem c1_roundtrip_witness :
    ((16 : Nat) = 8 ∨ (16 : Nat) = 16 ∨ (16 : Nat) = 32) ∧
      ((16 / 8 * 1 : Nat) ∣ ([5, 0, 254, 255] : List Nat).length) ∧
      (decodeWaveform (canonicalWav 100 16 1 1 8000 16000 2 16 [5, 0, 254, 255]) >>= fun wv =>
          writeWavBytes wv (isolate wv "drums")) =
        .ok (canonicalWav 100 16 1 1 8000 16000 2 16 [5, 0, 254, 255]) :=
  ⟨by decide, by decide,
    c1_roundtrip 100 16 1 1 8000 16000 2 16 [5, 0, 254, 255] "drums" (by decide)
      (by decide) (by decide) (by decide) (by decide) (by decide) (by decide)
      (by decide) (by decide) (by decide) (by decide) (by decide)⟩

/-- Claim C2, counterexample: inserting an unknown chunk between the `WAVE`
tag and the `fmt ` chunk makes decode fail (here with `UnsupportedBitDepth`),
because the eleven header reads sit at fixed offsets and only the cursor
between the fmt block and the `data` chunk is ever chunk-scanned; the claim
asserts decode would succeed with the same result. -/
theorem c2_chunk_before_fmt_cex :
    decodeWaveform c2plainStream = .ok c2wave ∧
      decodeWaveform c2paddedStream = .error .unsupportedBitDepth := by
  constructor
  · have hf : find_data_block_size c2plainStream 36 = .ok (2, 44) := by
      rw [find_data_block_size]
      decide
    simp only [decodeWaveform, hf]
    decide
  · decide

/-- Claim C2, amended: only unknown chunks between the `fmt ` chunk and the
`data` chunk are tolerated.  Inserting one (with a correct declared size)
there leaves the decoded format fields and sample matrix unchanged. -/
theorem c2_unknown_chunk_between_fmt_data (header cid payload rest : List Nat)
    (hheader : header.length = 36) (hcid : cid.length = 4) (hne : cid ≠ dataTag)
    (hplen : payload.length < 4294967296) :
    (decodeWaveform
        (header ++ (cid ++ leBytes 4 payload.length ++ payload) ++ rest)).map stripIds =
      (decodeWaveform (header ++ rest)).map stripIds := by
  have hassoc : header ++ (cid ++ leBytes 4 payload.length ++ payload) ++ rest =
      header ++ ((cid ++ leBytes 4 payload.length ++ payload) ++ rest) := by
    simp [List.append_assoc]
  rw [hassoc]
  have hslA : ∀ k n, k + n ≤ 36 →
      slice (header ++ ((cid ++ leBytes 4 payload.length ++ payload) ++ rest)) k n =
        slice header k n := by
    intro k n h
    exact slice_append_left _ _ _ _ (by omega)
  have hslB : ∀ k n, k + n ≤ 36 → slice (header ++ rest) k n = slice header k n := by
    intro k n h
    exact slice_append_left _ _ _ _ (by omega)
  have hdropA : (header ++ ((cid ++ leBytes 4 payload.length ++ payload) ++ rest)).drop 36 =
      (cid ++ leBytes 4 payload.length ++ payload) ++ rest := drop_append_len _ hheader
  have hdropB : (header ++ rest).drop 36 = rest := drop_append_len _ hheader
  have hid0 : slice ((cid ++ leBytes 4 payload.length ++ payload) ++ rest) 0 4 = cid := by
    unfold slice
    rw [List.drop_zero, List.append_assoc, List.append_assoc]
    rw [List.take_append_eq_append_take]
    have h1 : 4 - cid.length = 0 := by omega
    rw [h1]
    simp [List.take_of_length_le, hcid]
  have hsz0 : slice ((cid ++ leBytes 4 payload.length ++ payload) ++ rest) (0 + 4) 4 =
      leBytes 4 payload.length := by
    unfold slice
    rw [List.append_assoc, List.append_assoc]
    rw [show (0 + 4 : Nat) = cid.length from by omega]
    rw [List.drop_left]
    rw [List.take_append_eq_append_take]
    have h1 : 4 - (leBytes 4 payload.length).length = 0 := by
      rw [leBytes_length]
    rw [h1]
    simp [List.take_of_length_le, leBytes_length]
  have hfindA : find_data_block_size
      (header ++ ((cid ++ leBytes 4 payload.length ++ payload) ++ rest)) 36 =
      (find_data_block_size rest 0).map
        (fun r => (r.1, 36 + (8 + payload.length + r.2))) := by
    rw [find_drop, hdropA]
    rw [find_step_skip (by simp [List.length_append, leBytes_length, hcid]; omega)
      (by rw [hid0]; exact hne)]
    rw [hsz0, leVal_leBytes 4 payload.length hplen]
    rw [find_drop]
    have hdropM : ((cid ++ leBytes 4 payload.length ++ payload) ++ rest).drop
        (0 + 8 + payload.length) = rest := drop_append_len _ (by
          simp [List.length_append, leBytes_length, hcid]
          omega)
    rw [hdropM]
    cases find_data_block_size rest 0 with
    | error e => rfl
    | ok r =>
      simp
      try omega
  have hfindB : find_data_block_size (header ++ rest) 36 =
      (find_data_block_size rest 0).map (fun r => (r.1, 36 + r.2)) := by
    rw [find_drop, hdropB]
  refine decode_strip_congr (header ++ rest)
    (header ++ ((cid ++ leBytes 4 payload.length ++ payload) ++ rest))
    ((hslA 4 4 (by omega)).trans (hslB 4 4 (by omega)).symm)
    ((hslA 16 4 (by omega)).trans (hslB 16 4 (by omega)).symm)
    ((hslA 20 2 (by omega)).trans (hslB 20 2 (by omega)).symm)
    ((hslA 22 2 (by omega)).trans (hslB 22 2 (by omega)).symm)
    ((hslA 24 4 (by omega)).trans (hslB 24 4 (by omega)).symm)
    ((hslA 28 4 (by omega)).trans (hslB 28 4 (by omega)).symm)
    ((hslA 32 2 (by omega)).trans (hslB 32 2 (by omega)).symm)
    ((hslA 34 2 (by omega)).trans (hslB 34 2 (by omega)).symm) ?_
  cases hrest : find_data_block_size rest 0 with
  | error e =>
    refine Or.inl ⟨e, ?_, ?_⟩
    · rw [hfindA, hrest]
      rfl
    · rw [hfindB, hrest]
      rfl
  | ok r =>
    obtain ⟨dsz, p⟩ := r
    refine Or.inr ⟨dsz, 36 + (8 + payload.length + p), 36 + p, ?_, ?_, ?_⟩
    · rw [hfindA, hrest]
      rfl
    · rw [hfindB, hrest]
      rfl
    · have hstep : ((cid ++ leBytes 4 payload.length ++ payload) ++ rest).drop
          (8 + payload.length) = rest :=
        drop_append_len _ (by
          simp [List.length_append, leBytes_length, hcid]
          omega)
      have hrawA : slice (header ++ ((cid ++ leBytes 4 payload.length ++ payload) ++ rest))
          (36 + (8 + payload.length + p)) dsz = slice rest p dsz := by
        unfold slice
        rw [show 36 + (8 + payload.length + p) = 36 + ((8 + payload.length) + p) from by omega]
        rw [← List.drop_drop, hdropA, ← List.drop_drop, hstep]
      have hrawB : slice (header ++ rest) (36 + p) dsz = slice rest p dsz := by
        unfold slice
        rw [← List.drop_drop, hdropB]
      rw [hrawA, hrawB]

/-- Witness for the amended C2 at a concrete stream with a `LIST` chunk
between the fmt block and the data chunk. -/
theorem c2_unknown_chunk_witness :
    (mkHeader 100 16 1 1 8000 16000 2 16).length = 36 ∧
      ([76, 73, 83, 84] : List Nat) ≠ dataTag ∧
      (decodeWaveform (mkHeader 100 16 1 1 8000 16000 2 16 ++
          ([76, 73, 83, 84] ++ leBytes 4 ([9, 9, 9, 9] : List Nat).length ++ [9, 9, 9, 9]) ++
          (dataTag ++ leBytes 4 2 ++ [5, 0]))).map stripIds =
        (decodeWaveform (mkHeader 100 16 1 1 8000 16000 2 16 ++
          (dataTag ++ leBytes 4 2 ++ [5, 0]))).map stripIds :=
  ⟨by decide, by decide,
    c2_unknown_chunk_between_fmt_data (mkHeader 100 16 1 1 8000 16000 2 16)
      [76, 73, 83, 84] [9, 9, 9, 9] (dataTag ++ leBytes 4 2 ++ [5, 0])
      (by decide) (by decide) (by decide) (by decide)⟩

/-- Claim C3: the code silently drops a trailing partial frame instead of
failing.  On `c3stream` (declared `data_size` 5, frame width 2) decode
succeeds with `num_samples = 2`, so
`num_samples * bytes_per_sample * audio_channels = 4 ≠ 5 = data_size`,
exhibiting the violation of the claimed invariant
`frame_count * bytes_per_sample * channel_count == data_size`. -/
theorem c3_partial_frame_dropped :
    ∃ wv, decodeWaveform c3stream = .ok wv ∧ wv.data_size = 5 ∧
      wv.num_samples * wv.bytes_per_sample * wv.audio_channels = 4 := by
  refine ⟨c3wave, ?_, by decide, by decide⟩
  have hf : find_data_block_size c3stream 36 = .ok (5, 44) := by
    rw [find_data_block_size]
    decide
  simp only [decodeWaveform, hf]
  decide

/-- Claim C4, counterexample: a stream whose chunk scan hits a 2-byte tail
reads a non-empty chunk id, then `struct.unpack` on the short size read
raises `struct.error`, not the `UnexpectedEndOfStream` `ValueError` the
claim requires for every truncated stream. -/
theorem c4_truncated_cex :
    decodeWaveform c4stream = .error .structError ∧
      PyError.structError ≠ PyError.endOfFileDataNotFound := by
  constructor
  · have hf : find_data_block_size c4stream 36 = .error .structError := by
      rw [find_data_block_size]
      decide
    simp only [decodeWaveform, hf]
    decide
  · decide

/-- Claim C4, amended: when the stream ends before a `data` chunk id is
found, the scan fails with `UnexpectedEndOfStream` exactly when the 4-byte id
read returns no bytes (cursor at or past end of stream); if 1-3 bytes remain
for the id or the size read is short, it fails with `struct.error` instead. -/
theorem c4_truncated_scan (s : List Nat) (pos : Nat) (h : s.length < pos + 8) :
    find_data_block_size s pos =
      .error (if s.length ≤ pos then PyError.endOfFileDataNotFound
              else PyError.structError) := by
  rcases le_or_lt s.length pos with hle | hlt
  · rw [find_step_eof hle, if_pos hle]
  · rw [find_step_structError hlt h, if_neg (by omega)]

/-- Witness for the amended C4 at a concrete 3-byte stream. -/
theorem c4_truncated_scan_witness :
    ([1, 2, 3] : List Nat).length < 0 + 8 ∧
      find_data_block_size [1, 2, 3] 0 = .error PyError.structError := by
  refine ⟨by decide, ?_⟩
  have h := c4_truncated_scan [1, 2, 3] 0 (by decide)
  simpa using h

/-- Claim C5: a stream whose fmt chunk declares a bit depth outside
{8, 16, 32} makes the whole run fail with `UnsupportedBitDepth` before any
output file is produced. -/
theorem c5_unsupported_bit_depth (s : List Nat) (dir : String) (sources : List String)
    (hlen : 36 ≤ s.length)
    (h8 : leVal (slice s 34 2) ≠ 8) (h16 : leVal (slice s 34 2) ≠ 16)
    (h32 : leVal (slice s 34 2) ≠ 32) :
    runSiren s dir sources = ([], some PyError.unsupportedBitDepth) := by
  have hdec : decodeWaveform s = .error .unsupportedBitDepth := by
    unfold decodeWaveform
    rw [unpackU32_ok (length_slice_of_le (by omega)),
        unpackU32_ok (length_slice_of_le (by omega)),
        unpackU16_ok (length_slice_of_le (by omega)),
        unpackU16_ok (length_slice_of_le (by omega)),
        unpackU32_ok (length_slice_of_le (by omega)),
        unpackU32_ok (length_slice_of_le (by omega)),
        unpackU16_ok (length_slice_of_le (by omega)),
        unpackU16_ok (length_slice_of_le (by omega))]
    simp only [ok_bind]
    rw [if_pos (by simp [h8, h16, h32])]
  unfold runSiren
  rw [hdec]

/-- Witness for C5 at a concrete stream declaring 24 bits per sample. -/
theorem c5_unsupported_bit_depth_witness :
    36 ≤ c5stream.length ∧ leVal (slice c5stream 34 2) = 24 ∧
      runSiren c5stream "out" ["drums"] = ([], some PyError.unsupportedBitDepth) :=
  ⟨by decide, by decide,
    c5_unsupported_bit_depth c5stream "out" ["drums"] (by decide) (by decide)
      (by decide) (by decide)⟩

/-- Claim C6, counterexample: a skipped (non-`data`) chunk declaring size
`0xFFFFFFFF` does not raise `MalformedChunkSize`; the scanner seeks past it
and the run ends with `UnexpectedEndOfStream` instead, because the sentinel
check sits inside the `block_id == b'data'` branch only. -/
theorem c6_skipped_chunk_cex :
    decodeWaveform c6stream = .error .endOfFileDataNotFound ∧
      PyError.endOfFileDataNotFound ≠ PyError.errorReadingFile := by
  constructor
  · have hf : find_data_block_size c6stream 36 = .error .endOfFileDataNotFound := by
      rw [find_data_block_size]
      rw [find_data_block_size]
      decide
    simp only [decodeWaveform, hf]
    decide
  · decide

/-- Claim C6, amended: `MalformedChunkSize` is raised only when the chunk the
scan matches as `data` declares size `0xFFFFFFFF`; the sizes of skipped
chunks are never checked. -/
theorem c6_malformed_only_on_match (s : List Nat) (pos : Nat)
    (hlen : pos + 8 ≤ s.length)
    (hid : slice s pos 4 = dataTag)
    (hval : leVal (slice s (pos + 4) 4) = 4294967295) :
    find_data_block_size s pos = .error PyError.errorReadingFile :=
  find_step_match_bad hlen hid hval

/-- Witness for the amended C6 at a concrete stream whose `data` chunk
declares the sentinel size. -/
theorem c6_malformed_only_on_match_witness :
    slice (dataTag ++ [255, 255, 255, 255]) 0 4 = dataTag ∧
      find_data_block_size (dataTag ++ [255, 255, 255, 255]) 0 =
        .error PyError.errorReadingFile :=
  ⟨by decide,
    c6_malformed_only_on_match (dataTag ++ [255, 255, 255, 255]) 0 (by decide)
      (by decide) (by decide)⟩

/-- Claim C7, counterexample: `struct.pack` rejects the out-of-range 16-bit
value 40000 with `struct.error`; it does not emit the bytes of
`40000 mod 2^16` as the claim asserts. -/
theorem c7_wrap_cex :
    packSample SampleFormat.sh 40000 = .error .structError ∧
      packSample SampleFormat.sh 40000 ≠
        .ok (leBytes 2 ((40000 : Int) % 65536).toNat) := by
  decide

/-- Claim C7, amended: a sample value outside the representable range of the
container's bit depth is not wrapped; the Sample Codec encode rejects it with
`struct.error`. -/
theorem c7_out_of_range_rejected (fmt : SampleFormat) (v : Int)
    (h : sampleInRange fmt v = false) :
    packSample fmt v = .error .structError := by
  cases fmt <;>
    simp only [sampleInRange, decide_eq_false_iff_not] at h <;>
    simp only [packSample, if_neg h]

/-- Witness for the amended C7 at the concrete out-of-range value 40000. -/
theorem c7_out_of_range_rejected_witness :
    sampleInRange SampleFormat.sh 40000 = false ∧
      packSample SampleFormat.sh 40000 = .error .structError :=
  ⟨by decide, c7_out_of_range_rejected SampleFormat.sh 40000 (by decide)⟩

/-- Claim C8: for every container whose header fields are representable at
their declared widths, the encoder's output is exactly the fixed sequence the
spec describes: `RIFF`, the carried `file_size`, `WAVE`, `fmt `,
`fmt_chunk_size`, the six format fields in order and width, `data`, the
carried `data_size`, then the Sample Codec encoding of the samples —
with `file_size` and `data_size` taken from the container, never recomputed
from the sample matrix. -/
theorem c8_encoder_layout (wv : Waveform) (amps : List (List Int))
    (hfs : wv.file_size < 4294967296) (hfmtsz : wv.fmt_size < 4294967296)
    (haf : wv.audio_format < 65536) (hch : wv.audio_channels < 65536)
    (hsr : wv.sample_rate < 4294967296) (hbr : wv.byte_rate < 4294967296)
    (hba : wv.block_align < 65536) (hbits : wv.bits_per_sample < 65536)
    (hds : wv.data_size < 4294967296) :
    writeWavBytes wv amps = encoderSpecOutput wv amps := by
  unfold writeWavBytes encoderSpecOutput
  rw [packU32_ok hfs, packU32_ok hfmtsz, packU16_ok haf, packU16_ok hch,
      packU32_ok hsr, packU32_ok hbr, packU16_ok hba, packU16_ok hbits,
      packU32_ok hds]
  simp only [ok_bind]
  cases packAmplitudes wv.sample_format amps with
  | error e => rfl
  | ok body => rfl

/-- Witness for C8 at a concrete 8-bit stereo container. -/
theorem c8_encoder_layout_witness :
    c8wave.file_size < 4294967296 ∧
      writeWavBytes c8wave c8wave.amplitudes = encoderSpecOutput c8wave c8wave.amplitudes :=
  ⟨by decide,
    c8_encoder_layout c8wave c8wave.amplitudes (by decide) (by decide) (by decide)
      (by decide) (by decide) (by decide) (by decide) (by decide) (by decide)⟩

/-- Claim C9, counterexample: `split` writes to
`f'{output_directory}{source}.wav'`, the direct concatenation with no path
separator: with output directory `"out"` and label `"drums"` the file is
`"outdrums.wav"`, not the `"out/drums.wav"` the claim asserts. -/
theorem c9_path_no_separator_cex :
    (split c9wave "out" ["drums"]).1.map Prod.fst = ["outdrums.wav"] ∧
      ("outdrums.wav" : String) ≠ "out/drums.wav" := by
  constructor
  · decide
  · decide

/-- Claim C9, amended: `split` processes the labels strictly in the order
given and writes exactly one file per label, at the path
`{output_directory}{label}.wav` (direct string concatenation, no separator
inserted), with the encoder output on the isolation result as content. -/
theorem c9_split_order_paths (wv : Waveform) (dir : String) (sources : List String)
    (bs : List Nat) (h : writeWavBytes wv wv.amplitudes = .ok bs) :
    split wv dir sources =
      (sources.map (fun source => (dir ++ source ++ ".wav", bs)), none) := by
  induction sources with
  | nil => rfl
  | cons src rest ih =>
    simp only [split, isolate, h, ih, List.map_cons]

/-- Witness for the amended C9: two labels produce two files in order. -/
theorem c9_split_order_paths_witness :
    writeWavBytes c9wave c9wave.amplitudes = .ok c9bytes ∧
      split c9wave "out" ["drums", "bass"] =
        ([("outdrums.wav", c9bytes), ("outbass.wav", c9bytes)], none) := by
  refine ⟨by decide, ?_⟩
  have h := c9_split_order_paths c9wave "out" ["drums", "bass"] c9bytes (by decide)
  simpa using h

/-- Claim C10: decode never validates the tag bytes at the `RIFF` (offset 0),
`WAVE` (offset 8) and `fmt ` (offset 12) positions: any stream agreeing with
`s` on the `file_size` field and on every byte from offset 16 onwards decodes
to the same outcome — the same error, or a `Waveform` agreeing on every field
except the three stored tag ids. -/
theorem c10_tags_unchecked (s t : List Nat)
    (hfs4 : slice t 4 4 = slice s 4 4)
    (htail : t.drop 16 = s.drop 16) :
    (decodeWaveform t).map stripIds = (decodeWaveform s).map stripIds := by
  have hdropk : ∀ k, 16 ≤ k → t.drop k = s.drop k := by
    intro k hk
    have e1 : t.drop k = (t.drop 16).drop (k - 16) := by
      rw [List.drop_drop]
      congr 1
      omega
    have e2 : s.drop k = (s.drop 16).drop (k - 16) := by
      rw [List.drop_drop]
      congr 1
      omega
    rw [e1, e2, htail]
  have hsl : ∀ k n, 16 ≤ k → slice t k n = slice s k n := by
    intro k n hk
    simp only [slice, hdropk k hk]
  have hfindeq : find_data_block_size t 36 = find_data_block_size s 36 := by
    rw [find_drop t 36, find_drop s 36, hdropk 36 (by omega)]
  refine decode_strip_congr s t hfs4 (hsl 16 4 (by omega)) (hsl 20 2 (by omega))
    (hsl 22 2 (by omega)) (hsl 24 4 (by omega)) (hsl 28 4 (by omega))
    (hsl 32 2 (by omega)) (hsl 34 2 (by omega)) ?_
  cases hf : find_data_block_size s 36 with
  | error e => exact Or.inl ⟨e, hfindeq.trans hf, rfl⟩
  | ok r =>
    obtain ⟨n, p⟩ := r
    refine Or.inr ⟨n, p, p, hfindeq.trans hf, rfl, ?_⟩
    have hp := find_ok_pos hf
    exact hsl p n (by omega)

/-- Witness for C10: replacing the three tag fields of a concrete canonical
stream with arbitrary bytes leaves the decode outcome unchanged up to the
stored ids. -/
theorem c10_tags_unchecked_witness :
    slice c10tStream 4 4 = slice c10sStream 4 4 ∧
      c10tStream.drop 16 = c10sStream.drop 16 ∧
      (decodeWaveform c10tStream).map stripIds =
        (decodeWaveform c10sStream).map stripIds :=
  ⟨by decide, by decide, c10_tags_unchecked c10sStream c10tStream (by decide) (by decide)⟩

end Siren
